import Mathlib

/-!
Verification of the lead-finder job orchestration engine.

Shallow embedding of the TypeScript sources:
* `src/server/storage.ts`      — dedupe hash, lead store, job rows, stats
* `src/server/ai-analyzer.ts`  — AI qualifier wrapper and local fallback heuristic
* `src/server/worker-pool.ts`  — the two worker-pool variants (map-based queue
                                 pool and the pLimit-based pool)
* `src/server/routes.ts`       — the scrape route (request validation)
* `src/shared/schema.ts`       — `scrapeRequestSchema`

Pure functions become Lean functions; the stateful pools become explicit
step relations on state types; fallible persistence returns `Except`.
-/

namespace LeadFinder


/-! ## JavaScript-semantics helpers -/

/-- JS `s || ''` on a nullable string: `null`/`undefined` and `''` are falsy,
so both collapse to the empty string. -/
def jsOrEmpty : Option String → String
  | none => ""
  | some s => if s = "" then "" else s


/-- JS `n || 0` on a nullable number: `null` and `0` both give `0`. -/
def jsOrZero : Option Int → Int
  | none => 0
  | some n => n


/-- JS truthiness of a nullable string (`if (profile.email)`):
true exactly for a present, non-empty string. -/
def jsTruthyStr : Option String → Bool
  | none => false
  | some s => s ≠ ""


/-- Embedding: `String.prototype.toLowerCase`, character by character (executable,
unlike `String.toLower` which does not reduce in the kernel). -/
def lowerStr (s : String) : String := ⟨s.data.map Char.toLower⟩


/-- Does the character list start with the pattern? (helper for `includes`). -/
def charsStartWith : List Char → List Char → Bool
  | [], _ => true
  | _ :: _, [] => false
  | p :: ps, c :: cs => p == c && charsStartWith ps cs


/-- Does the character list contain the pattern as a contiguous run? -/
def charsContain : List Char → List Char → Bool
  | [], pat => pat.isEmpty
  | c :: cs, pat => charsStartWith pat (c :: cs) || charsContain cs pat


/-- JS `s.includes(pat)`: substring containment. -/
def strIncludes (s pat : String) : Bool := charsContain s.data pat.data


/-! ## Dedupe fingerprint (`generateDedupeHash`, src/server/storage.ts:31-35) -/

/-- The key string hashed by `generateDedupeHash`:
`` `${(email || '').toLowerCase()}-${platform}-${username.toLowerCase()}` ``. -/
def dedupeKey (email : Option String) (platform username : String) : String :=
  lowerStr (jsOrEmpty email) ++ "-" ++ platform ++ "-" ++ lowerStr username


/-- Embedding: `generateDedupeHash(email, platform, username)`: the hex digest of the
key string.  The digest function itself (`crypto.createHash('sha256')`) is an
external primitive and is passed in abstractly; every claim about the
fingerprint depends only on the key-string construction. -/
def generateDedupeHash (sha256hex : String → String)
    (email : Option String) (platform username : String) : String :=
  sha256hex (dedupeKey email platform username)


/-! ## Store statistics (`DatabaseStorage.getStats`, src/server/storage.ts:114-120) -/

/-- The slice of a persisted lead row that `getStats` reads. -/
structure StatsLead where
  isQualified : Bool
  relevanceScore : Option Int
  deriving Repr, DecidableEq


structure LeadStats where
  total : Nat
  qualified : Nat
  averageScore : Int
  deriving Repr, DecidableEq


/-- Embedding: `getStats`: qualified = leads with `isQualified`; total score sums
`l.relevanceScore || 0`; the average divides only when at least one lead
exists (`allLeads.length > 0 ? Math.round(...) : 0`), rounding half up like
`Math.round`. -/
def getStats (allLeads : List StatsLead) : LeadStats :=
  let qualified := (allLeads.filter (fun l => l.isQualified)).length
  let totalScore := allLeads.foldl (fun sum l => sum + jsOrZero l.relevanceScore) 0
  let averageScore : Int :=
    if 0 < allLeads.length then round ((totalScore : ℚ) / (allLeads.length : ℚ)) else 0
  { total := allLeads.length, qualified := qualified, averageScore := averageScore }


/-! ## Qualifier wrapper and local fallback (src/server/ai-analyzer.ts) -/

/-- JS `x || d` for a nullable string with default `d`. -/
def jsOrStr : Option String → String → String
  | none, d => d
  | some s, d => if s = "" then d else s


/-- The profile slice consumed by `analyzeProfileWithAI` (`ProfileData`). -/
structure ProfileData where
  platform : String
  username : String
  bio : String
  name : Option String
  title : Option String
  company : Option String
  followerCount : Int
  email : Option String
  deriving Repr, DecidableEq


structure AnalysisResult where
  isQualified : Bool
  relevanceScore : Int
  businessType : String
  contextSummary : String
  reasoning : String
  deriving Repr, DecidableEq


def agencyKeywords : List String :=
  ["agency", "marketing", "creative", "digital", "consulting", "media"]


def decisionMakerTitles : List String :=
  ["founder", "ceo", "owner", "director", "cmo", "head", "president"]


/-- Follower scoring ladder of `fallbackAnalysis` (ai-analyzer.ts:125-128). -/
def followerBracketScore (followerCount : Int) : Int :=
  if followerCount ≥ 50000 then 25
  else if followerCount ≥ 20000 then 20
  else if followerCount ≥ 10000 then 15
  else if followerCount ≥ 5000 then 10
  else 0


/-- Embedding: `(profile.bio || '').toLowerCase()`. -/
def fallbackBio (p : ProfileData) : String := lowerStr (if p.bio = "" then "" else p.bio)


/-- Embedding: `(profile.title || '').toLowerCase()`. -/
def fallbackTitle (p : ProfileData) : String := lowerStr (jsOrEmpty p.title)


/-- Business-type detection of `fallbackAnalysis` (ai-analyzer.ts:131-140):
the detected type together with the score bonus it adds. -/
def businessTypeScore (bio : String) : String × Int :=
  if agencyKeywords.any (fun kw => strIncludes bio kw) then ("agency", 20)
  else if strIncludes bio "coach" then ("coach", 15)
  else if strIncludes bio "consultant" then ("consultant", 15)
  else ("unknown", 0)


/-- The accumulated `score` of `fallbackAnalysis`: follower bracket, bio
keywords, decision-maker title bonus, email bonus. -/
def fallbackScore (p : ProfileData) : Int :=
  followerBracketScore p.followerCount
  + (businessTypeScore (fallbackBio p)).2
  + (if decisionMakerTitles.any (fun t => strIncludes (fallbackTitle p) t) then 20 else 0)
  + (if jsTruthyStr p.email then 15 else 0)


/-- Embedding: `fallbackAnalysis` (ai-analyzer.ts:113-161): deterministic local
heuristic; `isQualified = score >= 50`, `relevanceScore = Math.min(100, score)`. -/
def fallbackAnalysis (profile : ProfileData) (offering : String) : AnalysisResult :=
  { isQualified := decide (50 ≤ fallbackScore profile)
    relevanceScore := min 100 (fallbackScore profile)
    businessType := (businessTypeScore (fallbackBio profile)).1
    contextSummary :=
      jsOrStr profile.name profile.username ++ " is a "
        ++ jsOrStr profile.title "professional" ++ " at "
        ++ jsOrStr profile.company "their company" ++ "."
    reasoning := "Analyzed using keyword matching due to AI unavailability." }


/-- What the AI call produced after JSON parsing: every field may be absent
(the `??` defaults in ai-analyzer.ts:98-104). -/
structure ParsedAnalysis where
  isQualified : Option Bool
  relevanceScore : Option Int
  businessType : Option String
  contextSummary : Option String
  reasoning : Option String
  deriving Repr, DecidableEq


/-- Outcome of the qualifier interaction inside `analyzeProfileWithAI`:
either one of the recoverable faults, or a parsed JSON result. -/
inductive QualifierOutcome where
  | noApiKey
  | requestError (message : String)
  | emptyResponse
  | unparsableContent
  | parsed (result : ParsedAnalysis)
  deriving Repr, DecidableEq


/-- Is this outcome one of the qualifier faults (every constructor except a
successfully parsed response)? -/
def QualifierOutcome.isFault : QualifierOutcome → Bool
  | .parsed _ => false
  | _ => true


/-- Embedding: `analyzeProfileWithAI` (ai-analyzer.ts:35-111): on a parsed response the
fields are defaulted and the score clamped to [0,100]; on any fault
(missing key, request error, empty response, unparsable content) the local
fallback heuristic is returned — the wrapper never throws. -/
def analyzeProfileWithAI (outcome : QualifierOutcome)
    (profile : ProfileData) (offering : String) : AnalysisResult :=
  match outcome with
  | .parsed r =>
      { isQualified := r.isQualified.getD false
        relevanceScore := min 100 (max 0 (r.relevanceScore.getD 0))
        businessType := r.businessType.getD "unknown"
        contextSummary := r.contextSummary.getD ""
        reasoning := r.reasoning.getD "" }
  | _ => fallbackAnalysis profile offering


/-! ## Scrape request validation (`scrapeRequestSchema`, src/shared/schema.ts:102-107,
and the scrape route, src/server/routes.ts:295-327) -/

/-- A raw scrape request body.  `quantity` is any JSON number — zod's
`z.number().min(1).max(1000)` imposes no integrality — and may be absent
(`.default(10)`). -/
structure RawScrapeRequest where
  platform : String
  query : String
  quantity : Option ℚ
  offering : String
  deriving Repr, DecidableEq


structure ScrapeRequest where
  platform : String
  query : String
  quantity : ℚ
  offering : String
  deriving Repr, DecidableEq


/-- The acceptance test of `scrapeRequestSchema`: platform in the enum,
query and offering of length ≥ 1, quantity (when present) in [1, 1000]. -/
def validScrapeRequest (r : RawScrapeRequest) : Bool :=
  (r.platform == "instagram" || r.platform == "linkedin" || r.platform == "both")
  && decide (1 ≤ r.query.length) && decide (1 ≤ r.offering.length)
  && (match r.quantity with
      | none => true
      | some q => decide (1 ≤ q) && decide (q ≤ 1000))


/-- Embedding: `scrapeRequestSchema.parse`: the validated request (missing quantity
becomes 10) or a validation failure. -/
def parseScrapeRequest (r : RawScrapeRequest) : Option ScrapeRequest :=
  if validScrapeRequest r then
    some ⟨r.platform, r.query, r.quantity.getD 10, r.offering⟩
  else none


/-- The scrape route handler: parse first; only a validated request creates
a job record (the new job id) and starts work. -/
def scrapeRoute (jobs : List ScrapeRequest) (r : RawScrapeRequest) :
    Option Nat × List ScrapeRequest :=
  match parseScrapeRequest r with
  | none => (none, jobs)
  | some req => (some jobs.length, jobs ++ [req])


/-! ## Lead store with at-most-once insert
(`DatabaseStorage.createLead`, src/server/storage.ts:38-60;
unique index `dedupe_hash_idx`, src/shared/schema.ts:27-29) -/

structure LeadRow where
  id : Nat
  dedupeHash : String
  deriving Repr, DecidableEq


structure DedupeRow where
  hash : String
  leadId : Nat
  deriving Repr, DecidableEq


structure StoreState where
  leads : List LeadRow
  dedupeHashes : List DedupeRow
  nextId : Nat
  deriving Repr, DecidableEq


/-- Embedding: `checkDuplicate` (storage.ts:127-130): membership in `dedupe_hashes`. -/
def checkDuplicate (s : StoreState) (hash : String) : Bool :=
  s.dedupeHashes.any (fun row => row.hash == hash)


/-- Does some persisted lead already own this fingerprint?  (What the unique
index `dedupe_hash_idx` on `leads.dedupeHash` guards.) -/
def leadsHashTaken (s : StoreState) (hash : String) : Bool :=
  s.leads.any (fun row => row.dedupeHash == hash)


/-- Number of persisted leads carrying the fingerprint. -/
def countLeadsWith (s : StoreState) (hash : String) : Nat :=
  (s.leads.filter (fun row => row.dedupeHash == hash)).length


/-- Embedding: `db.insert(leads) ... returning()`: raises Postgres error `23505` when the
unique index on `dedupeHash` is violated; `fault` injects any other
persistence error the engine may raise instead. -/
def dbInsertLead (s : StoreState) (hash : String) (fault : Option String) :
    Except String (LeadRow × StoreState) :=
  match fault with
  | some code => .error code
  | none =>
    if leadsHashTaken s hash then .error "23505"
    else
      .ok (⟨s.nextId, hash⟩,
        { s with leads := s.leads ++ [⟨s.nextId, hash⟩], nextId := s.nextId + 1 })


/-- Embedding: `db.insert(dedupeHashes).values(...).onConflictDoNothing()`. -/
def insertDedupeHash (s : StoreState) (hash : String) (leadId : Nat) : StoreState :=
  if s.dedupeHashes.any (fun row => row.hash == hash) then s
  else { s with dedupeHashes := s.dedupeHashes ++ [⟨hash, leadId⟩] }


/-- Embedding: `createLead` (storage.ts:38-60): duplicate check first (`null` on a hit);
then the insert, mapping a `23505` unique-constraint violation to `null` and
propagating every other error. -/
def createLead (s : StoreState) (hash : String) (fault : Option String) :
    Except String (Option LeadRow × StoreState) :=
  if checkDuplicate s hash then .ok (none, s)
  else
    match dbInsertLead s hash fault with
    | .ok (row, s1) => .ok (some row, insertDedupeHash s1 hash row.id)
    | .error code => if code = "23505" then .ok (none, s) else .error code


/-- A sequence of insertion attempts sharing one fingerprint: returns how
many attempts produced a `Lead` and the final store. -/
def runCreateLeads (s : StoreState) (hash : String) :
    List (Option String) → Nat × StoreState
  | [] => (0, s)
  | fault :: rest =>
    match createLead s hash fault with
    | .ok (some _, s1) =>
      let r := runCreateLeads s1 hash rest
      (r.1 + 1, r.2)
    | .ok (none, s1) => runCreateLeads s1 hash rest
    | .error _ => runCreateLeads s hash rest


/-! ## Quantity split across platforms
(pLimit-variant `startJob`, src/server/worker-pool.ts:385-408) -/

/-- Embedding: `igQuantity` (worker-pool.ts:393): Instagram's share of the target. -/
def igQuantity (platform : String) (quantity : ℕ) : ℕ :=
  if platform = "both" then ⌈(quantity : ℚ) * (6/10)⌉₊
  else if platform = "instagram" then quantity else 0


/-- Embedding: `liQuantity` (worker-pool.ts:394): LinkedIn's share of the target. -/
def liQuantity (platform : String) (quantity : ℕ) : ℕ :=
  if platform = "both" then ⌈(quantity : ℚ) * (4/10)⌉₊
  else if platform = "linkedin" then quantity else 0


/-- The discovery invocations `startJob` schedules: one guarded push of the
Instagram scraper, then one of the LinkedIn scraper (worker-pool.ts:396-404). -/
def scrapeCalls (platform : String) (quantity : ℕ) : List (String × ℕ) :=
  (if 0 < igQuantity platform quantity
    then [("instagram", igQuantity platform quantity)] else [])
  ++ (if 0 < liQuantity platform quantity
    then [("linkedin", liQuantity platform quantity)] else [])


/-! ## Per-job counters (C4)
pLimit-variant per-candidate task, worker-pool.ts:418-506;
queue-variant `processTask`, worker-pool.ts:160-214 -/

structure JobCounters where
  processedCount : ℕ
  qualifiedCount : ℕ
  duplicatesSkipped : ℕ
  deriving Repr, DecidableEq


def JobCounters.zero : JobCounters := ⟨0, 0, 0⟩


/-- The external observations one pLimit-variant candidate task makes:
follower validity, dedupe-ledger answer, the analysis verdict, and whether
`createLead` actually persisted a row. -/
structure CandidateRun where
  validFollower : Bool
  dupHit : Bool
  businessType : String
  relevanceScore : Int
  isQualified : Bool
  saved : Bool
  deriving Repr, DecidableEq


/-- Counter effect of one pLimit-variant candidate task: follower filter
(counted nowhere), dedupe hit (`duplicatesSkipped++`), freelancer/low-score
rejection (counted nowhere), then `processedCount++` (and conditionally
`qualifiedCount++`) only when `createLead` returned a row. -/
def processCandidate (c : JobCounters) (r : CandidateRun) : JobCounters :=
  if !r.validFollower then c
  else if r.dupHit then { c with duplicatesSkipped := c.duplicatesSkipped + 1 }
  else if r.businessType = "freelancer" ∨ r.relevanceScore < 30 then c
  else if r.saved then
    { c with processedCount := c.processedCount + 1,
             qualifiedCount :=
               if r.isQualified then c.qualifiedCount + 1 else c.qualifiedCount }
  else c


def runCandidates (c : JobCounters) (rs : List CandidateRun) : JobCounters :=
  rs.foldl processCandidate c


/-- The external observations of one queue-variant `processTask`. -/
structure TaskRun where
  profileFound : Bool
  dupHit : Bool
  isQualified : Bool
  saved : Bool
  deriving Repr, DecidableEq


/-- Counter effect of one queue-variant `processTask` (worker-pool.ts:160-214). -/
def processTaskCounters (c : JobCounters) (t : TaskRun) : JobCounters :=
  if !t.profileFound then c
  else if t.dupHit then { c with duplicatesSkipped := c.duplicatesSkipped + 1 }
  else if t.saved then
    { c with processedCount := c.processedCount + 1,
             qualifiedCount :=
               if t.isQualified then c.qualifiedCount + 1 else c.qualifiedCount }
  else c


def runTasks (c : JobCounters) (ts : List TaskRun) : JobCounters :=
  ts.foldl processTaskCounters c


/-! ## The map-based queue worker pool as a transition system
(queue-variant `WorkerPool`, src/server/worker-pool.ts:27-308) -/

/-- The store's job row slice touched by the pool's lifecycle calls
(`startScrapeJob`, `completeScrapeJob`, `updateScrapeJobProgress`). -/
structure JobRow where
  status : String
  completedAtSet : Bool
  activeWorkers : Int
  deriving Repr, DecidableEq


/-- Embedding: `activeJobs.get`: first binding of the job id, if any. -/
def lookupJob : List (ℕ × Bool) → ℕ → Option Bool
  | [], _ => none
  | (i, b) :: rest, j => if i = j then some b else lookupJob rest j


/-- Embedding: `jobInfo.running = b` on the job's entry (pointwise over the registry). -/
def setJobFlag : List (ℕ × Bool) → ℕ → Bool → List (ℕ × Bool)
  | [], _, _ => []
  | (i, x) :: rest, j, b =>
    if i = j then (i, b) :: setJobFlag rest j b else (i, x) :: setJobFlag rest j b


/-- Embedding: `activeJobs.delete(jobId)`. -/
def removeJob : List (ℕ × Bool) → ℕ → List (ℕ × Bool)
  | [], _ => []
  | (i, x) :: rest, j => if i = j then removeJob rest j else (i, x) :: removeJob rest j


/-- State of the queue-variant pool with `n` worker slots: which job each
slot is executing (`none` = idle, mirroring `workers: Map<number, boolean>`
plus the task the busy slot runs), the task queue (job ids of queued tasks),
the `activeJobs` registry, the emission log of `complete` events, and the
job rows in the store. -/
structure QState (n : ℕ) where
  running : Fin n → Option ℕ
  taskQueue : List ℕ
  activeJobs : List (ℕ × Bool)
  completeEmitted : List ℕ
  rows : ℕ → JobRow


/-- Number of busy worker slots (`activeTasks` in the completion check). -/
def busyCount {n : ℕ} (s : QState n) : ℕ :=
  (Finset.univ.filter (fun w => (s.running w).isSome)).card


def QState.init (n : ℕ) : QState n :=
  { running := fun _ => none
    taskQueue := []
    activeJobs := []
    completeEmitted := []
    rows := fun _ => ⟨"queued", false, 0⟩ }


/-- Embedding: `startJob` (worker-pool.ts:79-105): mark the row running, register the
job as active, and append its `k` generated targets to the queue. -/
def startJobEffect {n : ℕ} (s : QState n) (j : ℕ) (k : ℕ) : QState n :=
  { s with
      activeJobs := s.activeJobs ++ [(j, true)]
      taskQueue := s.taskQueue ++ List.replicate k j
      rows := Function.update s.rows j { s.rows j with status := "running" } }


/-- Embedding: `processQueue` dispatching the queue head to the idle slot `w`
(worker-pool.ts:122-137) fused with the `activeWorkers` increment at the top
of `processTask` (worker-pool.ts:144-147). -/
def dispatchRunEffect {n : ℕ} (s : QState n) (w : Fin n) (j : ℕ) (rest : List ℕ) :
    QState n :=
  { s with
      running := Function.update s.running w (some j)
      taskQueue := rest
      rows := Function.update s.rows j
        { s.rows j with activeWorkers := (s.rows j).activeWorkers + 1 } }


/-- Embedding: `completeJob` (worker-pool.ts:275-291) plus `completeScrapeJob`
(storage.ts:174-178): deregister the job, set the row to completed with
`completedAt` recorded and `activeWorkers` 0, emit `complete`. -/
def completeJobEffect {n : ℕ} (s : QState n) (j : ℕ) : QState n :=
  { s with
      activeJobs := removeJob s.activeJobs j
      rows := Function.update s.rows j ⟨"completed", true, 0⟩
      completeEmitted := s.completeEmitted ++ [j] }


/-- The `finally` block of `processTask` (worker-pool.ts:221-241): decrement
`activeWorkers`, free the slot, then run the completion check — complete the
job exactly when no task of it remains queued, no slot is busy any more, and
the job is still registered. -/
def finishEffect {n : ℕ} (s : QState n) (w : Fin n) (j : ℕ) : QState n :=
  let s1 : QState n :=
    { s with
        running := Function.update s.running w none
        rows := Function.update s.rows j
          { s.rows j with activeWorkers := max ((s.rows j).activeWorkers - 1) 0 } }
  if s1.taskQueue.count j = 0 ∧ busyCount s1 = 0 ∧ lookupJob s1.activeJobs j ≠ none
  then completeJobEffect s1 j
  else s1


/-- Embedding: `cancelJob` (queue variant, worker-pool.ts:297-303): if the job is
registered, clear its running flag and drop its queued tasks. -/
def cancelJobQ {n : ℕ} (s : QState n) (j : ℕ) : QState n :=
  if (lookupJob s.activeJobs j).isSome then
    { s with
        activeJobs := setJobFlag s.activeJobs j false
        taskQueue := s.taskQueue.filter (fun t => t ≠ j) }
  else s


/-- One scheduler step of the queue-variant pool. -/
inductive QStep (n : ℕ) : QState n → QState n → Prop where
  | start (s : QState n) (j k : ℕ)
      (hfresh : lookupJob s.activeJobs j = none)
      (hnodone : j ∉ s.completeEmitted)
      (hnoq : s.taskQueue.count j = 0)
      (hnorun : ∀ w, s.running w ≠ some j)
      (hk : 1 ≤ k) :
      QStep n s (startJobEffect s j k)
  | dispatchRun (s : QState n) (w : Fin n) (j : ℕ) (rest : List ℕ)
      (hidle : s.running w = none)
      (hq : s.taskQueue = j :: rest)
      (hrun : lookupJob s.activeJobs j = some true) :
      QStep n s (dispatchRunEffect s w j rest)
  | dispatchDrop (s : QState n) (j : ℕ) (rest : List ℕ)
      (hq : s.taskQueue = j :: rest)
      (hstale : lookupJob s.activeJobs j ≠ some true) :
      QStep n s { s with taskQueue := rest }
  | finish (s : QState n) (w : Fin n) (j : ℕ)
      (hbusy : s.running w = some j) :
      QStep n s (finishEffect s w j)
  | cancel (s : QState n) (j : ℕ) :
      QStep n s (cancelJobQ s j)


/-- Reachability by queue-pool steps. -/
inductive QReach (n : ℕ) : QState n → QState n → Prop where
  | refl (s : QState n) : QReach n s s
  | tail {s t u : QState n} : QReach n s t → QStep n t u → QReach n s u


/-! ## The pLimit-based pool (src/server/worker-pool.ts:311-551) -/

/-- State of the pLimit-variant pool for one job: tasks handed to
`pLimit(maxWorkers)` but not yet started, tasks currently executing, the
`activeJobs` registry bit the pLimit `cancelJob` flips, and how many tasks
have begun dispatch. -/
structure PLState where
  pending : ℕ
  active : ℕ
  jobActive : Bool
  startedCount : ℕ
  deriving Repr, DecidableEq


def PLState.init (k : ℕ) : PLState := ⟨k, 0, true, 0⟩


/-- Embedding: `cancelJob` (pLimit variant, worker-pool.ts:538-544): it only clears the
job's registry entry; nothing in the per-candidate tasks reads it. -/
def plCancel (s : PLState) : PLState :=
  if s.jobActive then { s with jobActive := false } else s


/-- One step of the pLimit pool: the limiter starts a queued task whenever a
slot is free — `running` is not consulted — or a task finishes, or the job
is cancelled. -/
inductive PLStep (limit : ℕ) : PLState → PLState → Prop where
  | startTask (s : PLState) (hpend : 1 ≤ s.pending) (hcap : s.active < limit) :
      PLStep limit s
        { s with pending := s.pending - 1, active := s.active + 1,
                 startedCount := s.startedCount + 1 }
  | finishTask (s : PLState) (hact : 1 ≤ s.active) :
      PLStep limit s { s with active := s.active - 1 }
  | cancel (s : PLState) : PLStep limit s (plCancel s)


inductive PLReach (limit : ℕ) : PLState → PLState → Prop where
  | refl (s : PLState) : PLReach limit s s
  | tail {s t u : PLState} : PLReach limit s t → PLStep limit t u → PLReach limit s u


/-- Every job already granted a completion event has left the registry. -/
def EmittedInactive {n : ℕ} (t : QState n) : Prop :=
  ∀ j, j ∈ t.completeEmitted → lookupJob t.activeJobs j = none


/-- Global pool invariant: emitted jobs are deregistered and the emission
log never repeats a job. -/
def QInv {n : ℕ} (t : QState n) : Prop :=
  EmittedInactive t ∧ t.completeEmitted.Nodup


/-- The one-job one-candidate trace: job 0 started with a single target. -/
def qTrace1 : QState 1 := startJobEffect (QState.init 1) 0 1


/-- Trace state after the single target of job 0 is dispatched to worker 0. -/
def qTrace2 : QState 1 := dispatchRunEffect qTrace1 0 0 []


/-- Trace state after that task finishes, which completes job 0. -/
def qTrace3 : QState 1 := finishEffect qTrace2 0 0


/-- Job 0 started and then cancelled before its target was dispatched. -/
def qCancelled : QState 1 := cancelJobQ qTrace1 0


/-- State of a cancelled job `j`: no queued task, only workers in `W0` (its
in-flight set at cancel time) can be running it, its registry entry is
cleared (or it already completed), and — when nothing of it was in flight —
it never receives a completion event. -/
def CancelInv (n : ℕ) (j : ℕ) (W0 : Finset (Fin n)) (t : QState n) : Prop :=
  t.taskQueue.count j = 0
  ∧ (∀ w, t.running w = some j → w ∈ W0)
  ∧ (lookupJob t.activeJobs j = some false
      ∨ (lookupJob t.activeJobs j = none ∧ j ∈ t.completeEmitted))
  ∧ (W0 = ∅ → j ∉ t.completeEmitted)


/-! ## Theorems -/


theorem foldl_add_eq_sum_map (f : StatsLead → Int) :
    ∀ (l : List StatsLead) (a : Int), l.foldl (fun s x => s + f x) a = a + (l.map f).sum
  | [], a => by simp
  | x :: xs, a => by
    simp only [List.foldl_cons, List.map_cons, List.sum_cons]
    rw [foldl_add_eq_sum_map f xs (a + f x)]
    ring


/-- C10: `getStats` is total and division-safe: with no leads it returns
`(0, 0, 0)` without dividing; otherwise `averageScore` is the rounded mean of
the scores (null read as 0) and `qualified` never exceeds `total`. -/
theorem getStats_total_and_division_safe (allLeads : List StatsLead)
    (hne : allLeads ≠ []) :
    getStats [] = ⟨0, 0, 0⟩
    ∧ (getStats allLeads).qualified ≤ (getStats allLeads).total
    ∧ (getStats allLeads).averageScore =
        round ((((allLeads.map (fun l => jsOrZero l.relevanceScore)).sum : Int) : ℚ)
          / (allLeads.length : ℚ)) := by
  refine ⟨rfl, ?_, ?_⟩
  · simpa [getStats] using List.length_filter_le _ allLeads
  · have hlen : 0 < allLeads.length := List.length_pos.mpr hne
    simp only [getStats, hlen, if_pos]
    rw [foldl_add_eq_sum_map]
    norm_num


/-- Witness for C10 at a concrete store of three leads. -/
theorem getStats_total_and_division_safe_witness :
    ([⟨true, some 90⟩, ⟨false, none⟩, ⟨false, some 20⟩] : List StatsLead) ≠ []
    ∧ (getStats [] = ⟨0, 0, 0⟩
      ∧ (getStats [⟨true, some 90⟩, ⟨false, none⟩, ⟨false, some 20⟩]).qualified
          ≤ (getStats [⟨true, some 90⟩, ⟨false, none⟩, ⟨false, some 20⟩]).total
      ∧ (getStats [⟨true, some 90⟩, ⟨false, none⟩, ⟨false, some 20⟩]).averageScore =
          round (((([⟨true, some 90⟩, ⟨false, none⟩, ⟨false, some 20⟩] : List StatsLead).map
            (fun l => jsOrZero l.relevanceScore)).sum : ℚ) / (3 : ℚ))) := by
  constructor
  · decide
  · simpa using getStats_total_and_division_safe
      [⟨true, some 90⟩, ⟨false, none⟩, ⟨false, some 20⟩] (by decide)


/-- C6: the fingerprint is deterministic, equals the digest of the string
built from the lowercased email-or-empty, the platform and the lowercased
username, and is invariant under letter case of email and username (in
particular two candidates both lacking an email and agreeing on platform and
username fingerprint identically). -/
theorem generateDedupeHash_key_and_case_invariance
    (sha256hex : String → String) (e1 e2 : Option String) (p u1 u2 : String)
    (hemail : lowerStr (jsOrEmpty e1) = lowerStr (jsOrEmpty e2))
    (huser : lowerStr u1 = lowerStr u2) :
    generateDedupeHash sha256hex e1 p u1
      = sha256hex (lowerStr (jsOrEmpty e1) ++ "-" ++ p ++ "-" ++ lowerStr u1)
    ∧ generateDedupeHash sha256hex e1 p u1 = generateDedupeHash sha256hex e2 p u2
    ∧ generateDedupeHash sha256hex none p u1
      = sha256hex ("" ++ "-" ++ p ++ "-" ++ lowerStr u1) := by
  refine ⟨rfl, ?_, rfl⟩
  unfold generateDedupeHash dedupeKey
  rw [hemail, huser]


/-- Witness for C6: same email/username up to case (one absent email arm uses
the empty string) give the same fingerprint under the identity digest. -/
theorem generateDedupeHash_key_and_case_invariance_witness :
    lowerStr (jsOrEmpty (some "Ada@Ex.COM")) = lowerStr (jsOrEmpty (some "ada@ex.com"))
    ∧ lowerStr "AdaLove" = lowerStr "adalove"
    ∧ generateDedupeHash id (some "Ada@Ex.COM") "instagram" "AdaLove"
        = generateDedupeHash id (some "ada@ex.com") "instagram" "adalove" := by
  refine ⟨by decide, by decide, ?_⟩
  exact (generateDedupeHash_key_and_case_invariance id (some "Ada@Ex.COM")
    (some "ada@ex.com") "instagram" "AdaLove" "adalove" (by decide) (by decide)).2.1


theorem followerBracketScore_bounds (n : Int) :
    0 ≤ followerBracketScore n ∧ followerBracketScore n ≤ 25 := by
  unfold followerBracketScore
  repeat' split
  all_goals omega


theorem businessTypeScore_bounds (bio : String) :
    0 ≤ (businessTypeScore bio).2 ∧ (businessTypeScore bio).2 ≤ 20 := by
  unfold businessTypeScore
  repeat' split
  all_goals omega


theorem fallbackScore_bounds (p : ProfileData) :
    0 ≤ fallbackScore p ∧ fallbackScore p ≤ 80 := by
  unfold fallbackScore
  obtain ⟨h1, h2⟩ := followerBracketScore_bounds p.followerCount
  obtain ⟨h3, h4⟩ := businessTypeScore_bounds (fallbackBio p)
  constructor <;> repeat' split
  all_goals omega


/-- C7: on every qualifier fault `analyzeProfileWithAI` returns the local
fallback; the fallback caps `relevanceScore` at 100 and qualifies exactly
when the score reaches 50. -/
theorem analyzeProfileWithAI_fault_uses_fallback
    (profile : ProfileData) (offering : String) (outcome : QualifierOutcome)
    (hfault : outcome.isFault = true) :
    analyzeProfileWithAI outcome profile offering = fallbackAnalysis profile offering
    ∧ (fallbackAnalysis profile offering).relevanceScore ≤ 100
    ∧ ((fallbackAnalysis profile offering).isQualified = true
        ↔ 50 ≤ (fallbackAnalysis profile offering).relevanceScore) := by
  obtain ⟨hs0, hs80⟩ := fallbackScore_bounds profile
  refine ⟨?_, ?_, ?_⟩
  · cases outcome <;> first
      | rfl
      | exact absurd hfault (by simp [QualifierOutcome.isFault])
  · simp only [fallbackAnalysis]
    omega
  · simp only [fallbackAnalysis, decide_eq_true_eq]
    omega


/-- Witness for C7: a concrete agency-founder profile under the
missing-API-key fault. -/
theorem analyzeProfileWithAI_fault_uses_fallback_witness :
    QualifierOutcome.noApiKey.isFault = true
    ∧ (analyzeProfileWithAI .noApiKey
        ⟨"instagram", "growthco", "Digital marketing agency for SaaS.",
          some "Grace Lee", some "Founder", some "GrowthCo", 60000, some "g@x.com"⟩ "SEO services"
        = fallbackAnalysis
          ⟨"instagram", "growthco", "Digital marketing agency for SaaS.",
            some "Grace Lee", some "Founder", some "GrowthCo", 60000, some "g@x.com"⟩ "SEO services"
      ∧ (fallbackAnalysis
          ⟨"instagram", "growthco", "Digital marketing agency for SaaS.",
            some "Grace Lee", some "Founder", some "GrowthCo", 60000, some "g@x.com"⟩
          "SEO services").relevanceScore ≤ 100
      ∧ ((fallbackAnalysis
          ⟨"instagram", "growthco", "Digital marketing agency for SaaS.",
            some "Grace Lee", some "Founder", some "GrowthCo", 60000, some "g@x.com"⟩
          "SEO services").isQualified = true
        ↔ 50 ≤ (fallbackAnalysis
          ⟨"instagram", "growthco", "Digital marketing agency for SaaS.",
            some "Grace Lee", some "Founder", some "GrowthCo", 60000, some "g@x.com"⟩
          "SEO services").relevanceScore)) :=
  ⟨by decide, analyzeProfileWithAI_fault_uses_fallback _ _ _ (by decide)⟩


theorem one_le_string_length_iff (s : String) : 1 ≤ s.length ↔ s ≠ "" := by
  cases s with
  | mk data =>
    cases data <;> simp [String.length, String.ext_iff]


/-- Counterexample to C5: a request that is valid in every respect except
`quantity = 2000` is rejected (the schema caps quantity at 1000, not 2000),
and a non-integral quantity `3/2` is accepted (no integrality check). -/
theorem scrapeRequest_quantity_2000_rejected :
    parseScrapeRequest ⟨"instagram", "dentists in NY", some 2000, "SEO services"⟩ = none
    ∧ (parseScrapeRequest ⟨"instagram", "dentists in NY", some (3/2), "SEO services"⟩).isSome
        = true := by
  constructor
  · have hval : validScrapeRequest
        ⟨"instagram", "dentists in NY", some 2000, "SEO services"⟩ = false := by
      rw [validScrapeRequest]
      norm_num
    rw [parseScrapeRequest, hval]
    rfl
  · have hval : validScrapeRequest
        ⟨"instagram", "dentists in NY", some (3/2), "SEO services"⟩ = true := by
      rw [validScrapeRequest]
      refine Bool.and_eq_true _ _ |>.mpr ⟨by decide, ?_⟩
      show (decide ((1:ℚ) ≤ 3/2) && decide ((3/2 : ℚ) ≤ 1000)) = true
      simp only [Bool.and_eq_true, decide_eq_true_eq]
      constructor <;> norm_num
    rw [parseScrapeRequest, hval]
    rfl


/-- C5 (amended): for every request, acceptance holds iff platform is one of
the three values, query and offering are non-empty, and quantity — when
present — is a number between 1 and 1000 inclusive; a rejected request
creates no job record, and an accepted one yields exactly the validated
request (a missing quantity defaulting to 10) recorded as a new job. -/
theorem parseScrapeRequest_accepts_iff (r : RawScrapeRequest)
    (jobs : List ScrapeRequest) :
    ((parseScrapeRequest r).isSome = true ↔
      ((r.platform = "instagram" ∨ r.platform = "linkedin" ∨ r.platform = "both")
        ∧ r.query ≠ "" ∧ r.offering ≠ ""
        ∧ ∀ q, r.quantity = some q → 1 ≤ q ∧ q ≤ 1000))
    ∧ (parseScrapeRequest r = none → scrapeRoute jobs r = (none, jobs))
    ∧ (∀ req, parseScrapeRequest r = some req →
        req = ⟨r.platform, r.query, r.quantity.getD 10, r.offering⟩
        ∧ scrapeRoute jobs r = (some jobs.length, jobs ++ [req])) := by
  refine ⟨?_, ?_, ?_⟩
  · rw [parseScrapeRequest]
    rcases hq : r.quantity with _ | q <;>
      simp [validScrapeRequest, hq, one_le_string_length_iff, and_assoc, or_assoc]
  · intro hrej
    rw [scrapeRoute, hrej]
  · intro req hacc
    have hreq : req = ⟨r.platform, r.query, r.quantity.getD 10, r.offering⟩ := by
      rw [parseScrapeRequest] at hacc
      split at hacc
      · exact (Option.some.inj hacc).symm
      · cases hacc
    refine ⟨hreq, ?_⟩
    rw [scrapeRoute, hacc]


/-- Witness for C5, instantiating both directions: the 2000-quantity request
is rejected and creates no job, while the same request without a quantity is
accepted with the default quantity 10 and recorded as job 0. -/
theorem parseScrapeRequest_accepts_iff_witness :
    parseScrapeRequest ⟨"instagram", "dentists in NY", some 2000, "SEO services"⟩ = none
    ∧ parseScrapeRequest ⟨"instagram", "dentists in NY", none, "SEO services"⟩
        = some ⟨"instagram", "dentists in NY", 10, "SEO services"⟩
    ∧ scrapeRoute [] ⟨"instagram", "dentists in NY", some 2000, "SEO services"⟩
        = (none, [])
    ∧ scrapeRoute [] ⟨"instagram", "dentists in NY", none, "SEO services"⟩
        = (some 0, [⟨"instagram", "dentists in NY", 10, "SEO services"⟩]) := by
  have hrej : parseScrapeRequest
      ⟨"instagram", "dentists in NY", some 2000, "SEO services"⟩ = none := by decide
  have hacc : parseScrapeRequest ⟨"instagram", "dentists in NY", none, "SEO services"⟩
      = some ⟨"instagram", "dentists in NY", 10, "SEO services"⟩ := by decide
  refine ⟨hrej, hacc, ?_, ?_⟩
  · exact (parseScrapeRequest_accepts_iff
      ⟨"instagram", "dentists in NY", some 2000, "SEO services"⟩ []).2.1 hrej
  · exact ((parseScrapeRequest_accepts_iff
      ⟨"instagram", "dentists in NY", none, "SEO services"⟩ []).2.2 _ hacc).2


theorem countLeadsWith_pos_iff (s : StoreState) (hash : String) :
    1 ≤ countLeadsWith s hash ↔ leadsHashTaken s hash = true := by
  rw [countLeadsWith, leadsHashTaken]
  rw [Nat.one_le_iff_ne_zero, Ne, List.length_eq_zero]
  simp [List.filter_eq_nil_iff, List.any_eq_true]


/-- Once the fingerprint is admitted anywhere (dedupe table or leads table),
every further attempt returns `null` or an error and leaves the store as is. -/
theorem runCreateLeads_blocked (hash : String) (faults : List (Option String))
    (s : StoreState)
    (hblock : checkDuplicate s hash = true ∨ 1 ≤ countLeadsWith s hash) :
    runCreateLeads s hash faults = (0, s) := by
  induction faults with
  | nil => rfl
  | cons fault rest ih =>
    rw [runCreateLeads]
    rcases hdup : checkDuplicate s hash with _ | _
    · have htaken : leadsHashTaken s hash = true := by
        rcases hblock with h | h
        · rw [hdup] at h; cases h
        · exact (countLeadsWith_pos_iff s hash).mp h
      rcases fault with _ | code
      · have hstep : createLead s hash none = .ok (none, s) := by
          simp [createLead, dbInsertLead, hdup, htaken]
        rw [hstep]
        exact ih
      · by_cases hc : code = "23505"
        · have hstep : createLead s hash (some code) = .ok (none, s) := by
            simp [createLead, dbInsertLead, hdup, hc]
          rw [hstep]
          exact ih
        · have hstep : createLead s hash (some code) = .error code := by
            simp [createLead, dbInsertLead, hdup, hc]
          rw [hstep]
          exact ih
    · have hstep : createLead s hash fault = .ok (none, s) := by
        simp [createLead, hdup]
      rw [hstep]
      exact ih


theorem checkDuplicate_insertDedupeHash (s : StoreState) (hash : String) (leadId : Nat) :
    checkDuplicate (insertDedupeHash s hash leadId) hash = true := by
  rw [insertDedupeHash]
  split
  · assumption
  · simp [checkDuplicate]


theorem countLeadsWith_insertDedupeHash (s : StoreState) (hash h0 : String) (leadId : Nat) :
    countLeadsWith (insertDedupeHash s hash leadId) h0 = countLeadsWith s h0 := by
  rw [insertDedupeHash]
  split <;> rfl


/-- From a store that has not admitted the fingerprint, a whole sequence of
attempts yields at most one `Lead` and leaves at most one persisted lead with
that fingerprint. -/
theorem runCreateLeads_at_most_once (hash : String) (faults : List (Option String))
    (s : StoreState)
    (hdup : checkDuplicate s hash = false) (hcount : countLeadsWith s hash = 0) :
    (runCreateLeads s hash faults).1 ≤ 1
    ∧ countLeadsWith (runCreateLeads s hash faults).2 hash ≤ 1 := by
  induction faults generalizing s with
  | nil => exact ⟨Nat.zero_le 1, by simp [runCreateLeads, hcount]⟩
  | cons fault rest ih =>
    have htaken : leadsHashTaken s hash = false := by
      rcases h : leadsHashTaken s hash with _ | _
      · rfl
      · exact absurd ((countLeadsWith_pos_iff s hash).mpr h) (by omega)
    rw [runCreateLeads]
    rcases fault with _ | code
    · -- the engine raises no spurious fault: the insert succeeds
      have hstep : createLead s hash none =
          .ok (some ⟨s.nextId, hash⟩,
            insertDedupeHash
              { s with leads := s.leads ++ [⟨s.nextId, hash⟩], nextId := s.nextId + 1 }
              hash s.nextId) := by
        simp [createLead, dbInsertLead, hdup, htaken]
      rw [hstep]
      dsimp only
      have hcount1 : countLeadsWith
          (insertDedupeHash
            { s with leads := s.leads ++ [⟨s.nextId, hash⟩], nextId := s.nextId + 1 }
            hash s.nextId) hash = 1 := by
        rw [countLeadsWith_insertDedupeHash]
        rw [countLeadsWith] at hcount ⊢
        simp only [List.filter_append, List.length_append]
        simp [hcount]
      have hrest := runCreateLeads_blocked hash rest
        (insertDedupeHash
          { s with leads := s.leads ++ [⟨s.nextId, hash⟩], nextId := s.nextId + 1 }
          hash s.nextId) (Or.inr (by omega))
      rw [hrest]
      exact ⟨by simp, by simpa using hcount1.le⟩
    · by_cases hc : code = "23505"
      · have hstep : createLead s hash (some code) = .ok (none, s) := by
          simp [createLead, dbInsertLead, hdup, hc]
        rw [hstep]
        exact ih s hdup hcount
      · have hstep : createLead s hash (some code) = .error code := by
          simp [createLead, dbInsertLead, hdup, hc]
        rw [hstep]
        exact ih s hdup hcount


/-- C1: a fingerprint already admitted makes `createLead` return `null`
without touching the store; a `23505` unique-violation at insert time is also
a `null` dedupe rejection; any other persistence error propagates; and over
any sequence of attempts sharing one fingerprint at most one attempt returns
a `Lead` while the store ends with at most one lead for that fingerprint. -/
theorem createLead_at_most_once_per_fingerprint
    (hash code : String) (faults : List (Option String))
    (sdup s : StoreState) (f : Option String)
    (hsdup : checkDuplicate sdup hash = true)
    (hdup : checkDuplicate s hash = false) (hcount : countLeadsWith s hash = 0)
    (hcode : code ≠ "23505") :
    createLead sdup hash f = .ok (none, sdup)
    ∧ createLead s hash (some "23505") = .ok (none, s)
    ∧ createLead s hash (some code) = .error code
    ∧ (runCreateLeads s hash faults).1 ≤ 1
    ∧ countLeadsWith (runCreateLeads s hash faults).2 hash ≤ 1 := by
  obtain ⟨h1, h2⟩ := runCreateLeads_at_most_once hash faults s hdup hcount
  refine ⟨?_, ?_, ?_, h1, h2⟩
  · simp [createLead, hsdup]
  · simp [createLead, hdup, dbInsertLead]
  · simp [createLead, hdup, dbInsertLead, hcode]


/-- Witness for C1: three racing attempts on one fingerprint (clean insert,
injected 23505, clean retry) against an empty store, plus an admitted store
and a non-23505 fault. -/
theorem createLead_at_most_once_per_fingerprint_witness :
    (checkDuplicate ⟨[], [⟨"h1", 0⟩], 1⟩ "h1" = true
      ∧ checkDuplicate ⟨[], [], 0⟩ "h1" = false
      ∧ countLeadsWith ⟨[], [], 0⟩ "h1" = 0
      ∧ ("40001" : String) ≠ "23505")
    ∧ (createLead ⟨[], [⟨"h1", 0⟩], 1⟩ "h1" none = .ok (none, ⟨[], [⟨"h1", 0⟩], 1⟩)
      ∧ createLead ⟨[], [], 0⟩ "h1" (some "23505") = .ok (none, ⟨[], [], 0⟩)
      ∧ createLead ⟨[], [], 0⟩ "h1" (some "40001") = .error "40001"
      ∧ (runCreateLeads ⟨[], [], 0⟩ "h1" [none, some "23505", none]).1 ≤ 1
      ∧ countLeadsWith (runCreateLeads ⟨[], [], 0⟩ "h1" [none, some "23505", none]).2 "h1"
          ≤ 1) :=
  ⟨⟨by decide, by decide, by decide, by decide⟩,
    createLead_at_most_once_per_fingerprint "h1" "40001" [none, some "23505", none]
      ⟨[], [⟨"h1", 0⟩], 1⟩ ⟨[], [], 0⟩ none
      (by decide) (by decide) (by decide) (by decide)⟩


/-- C9: with platform `both` discovery is invoked once per platform with the
quantity split `ceil(q*0.6)` / `ceil(q*0.4)`; a single platform receives the
full quantity and the other receives zero (and is not invoked). -/
theorem discovery_split_both_and_single (quantity : ℕ) (hq : 1 ≤ quantity) :
    scrapeCalls "both" quantity =
      [("instagram", ⌈(quantity : ℚ) * (6/10)⌉₊), ("linkedin", ⌈(quantity : ℚ) * (4/10)⌉₊)]
    ∧ scrapeCalls "instagram" quantity = [("instagram", quantity)]
    ∧ scrapeCalls "linkedin" quantity = [("linkedin", quantity)]
    ∧ igQuantity "instagram" quantity = quantity ∧ liQuantity "instagram" quantity = 0
    ∧ igQuantity "linkedin" quantity = 0 ∧ liQuantity "linkedin" quantity = quantity := by
  have hq0 : (0 : ℚ) < (quantity : ℚ) := by exact_mod_cast hq
  have hig : 0 < ⌈(quantity : ℚ) * (6/10)⌉₊ := by
    rw [Nat.ceil_pos]
    positivity
  have hli : 0 < ⌈(quantity : ℚ) * (4/10)⌉₊ := by
    rw [Nat.ceil_pos]
    positivity
  refine ⟨?_, ?_, ?_, ?_, ?_, ?_, ?_⟩ <;>
    simp [scrapeCalls, igQuantity, liQuantity, hig, hli, hq] <;> omega


/-- Witness for C9 at quantity 50: the 60/40 split is 30 and 20. -/
theorem discovery_split_both_and_single_witness :
    1 ≤ 50
    ∧ (scrapeCalls "both" 50 =
        [("instagram", ⌈(50 : ℚ) * (6/10)⌉₊), ("linkedin", ⌈(50 : ℚ) * (4/10)⌉₊)]
      ∧ scrapeCalls "instagram" 50 = [("instagram", 50)]
      ∧ scrapeCalls "linkedin" 50 = [("linkedin", 50)]
      ∧ igQuantity "instagram" 50 = 50 ∧ liQuantity "instagram" 50 = 0
      ∧ igQuantity "linkedin" 50 = 0 ∧ liQuantity "linkedin" 50 = 50) :=
  ⟨by decide, discovery_split_both_and_single 50 (by decide)⟩


theorem processCandidate_step (c : JobCounters) (r : CandidateRun) :
    (processCandidate c r).processedCount + (processCandidate c r).duplicatesSkipped
      ≤ c.processedCount + c.duplicatesSkipped + 1
    ∧ (c.qualifiedCount ≤ c.processedCount →
        (processCandidate c r).qualifiedCount ≤ (processCandidate c r).processedCount) := by
  unfold processCandidate
  constructor <;> repeat' split
  all_goals simp
  all_goals omega


theorem processTaskCounters_step (c : JobCounters) (t : TaskRun) :
    (processTaskCounters c t).processedCount + (processTaskCounters c t).duplicatesSkipped
      ≤ c.processedCount + c.duplicatesSkipped + 1
    ∧ (c.qualifiedCount ≤ c.processedCount →
        (processTaskCounters c t).qualifiedCount ≤ (processTaskCounters c t).processedCount) := by
  unfold processTaskCounters
  constructor <;> repeat' split
  all_goals simp
  all_goals omega


theorem runCandidates_bound :
    ∀ (rs : List CandidateRun) (c : JobCounters),
      (runCandidates c rs).processedCount + (runCandidates c rs).duplicatesSkipped
        ≤ c.processedCount + c.duplicatesSkipped + rs.length
      ∧ (c.qualifiedCount ≤ c.processedCount →
          (runCandidates c rs).qualifiedCount ≤ (runCandidates c rs).processedCount)
  | [], c => by simp [runCandidates]
  | r :: rest, c => by
    obtain ⟨h1, h2⟩ := processCandidate_step c r
    obtain ⟨ih1, ih2⟩ := runCandidates_bound rest (processCandidate c r)
    refine ⟨?_, fun hq => ih2 (h2 hq)⟩
    calc (runCandidates (processCandidate c r) rest).processedCount
        + (runCandidates (processCandidate c r) rest).duplicatesSkipped
        ≤ (processCandidate c r).processedCount
          + (processCandidate c r).duplicatesSkipped + rest.length := ih1
      _ ≤ c.processedCount + c.duplicatesSkipped + (r :: rest).length := by
          simp only [List.length_cons]
          omega


theorem runTasks_bound :
    ∀ (ts : List TaskRun) (c : JobCounters),
      (runTasks c ts).processedCount + (runTasks c ts).duplicatesSkipped
        ≤ c.processedCount + c.duplicatesSkipped + ts.length
      ∧ (c.qualifiedCount ≤ c.processedCount →
          (runTasks c ts).qualifiedCount ≤ (runTasks c ts).processedCount)
  | [], c => by simp [runTasks]
  | t :: rest, c => by
    obtain ⟨h1, h2⟩ := processTaskCounters_step c t
    obtain ⟨ih1, ih2⟩ := runTasks_bound rest (processTaskCounters c t)
    refine ⟨?_, fun hq => ih2 (h2 hq)⟩
    calc (runTasks (processTaskCounters c t) rest).processedCount
        + (runTasks (processTaskCounters c t) rest).duplicatesSkipped
        ≤ (processTaskCounters c t).processedCount
          + (processTaskCounters c t).duplicatesSkipped + rest.length := ih1
      _ ≤ c.processedCount + c.duplicatesSkipped + (t :: rest).length := by
          simp only [List.length_cons]
          omega


/-- C4: at every point of a job (i.e. after any prefix of the discovered
candidates, in either worker-pool variant), `processedCount +
duplicatesSkipped` is at most the number of candidates seen and
`qualifiedCount` is at most `processedCount`; each candidate contributes at
most one counter increment. -/
theorem job_counters_invariant (rs : List CandidateRun) (ts : List TaskRun) (k : ℕ) :
    (runCandidates JobCounters.zero (rs.take k)).processedCount
      + (runCandidates JobCounters.zero (rs.take k)).duplicatesSkipped ≤ k
    ∧ (runCandidates JobCounters.zero (rs.take k)).qualifiedCount
        ≤ (runCandidates JobCounters.zero (rs.take k)).processedCount
    ∧ (runTasks JobCounters.zero (ts.take k)).processedCount
        + (runTasks JobCounters.zero (ts.take k)).duplicatesSkipped ≤ k
    ∧ (runTasks JobCounters.zero (ts.take k)).qualifiedCount
        ≤ (runTasks JobCounters.zero (ts.take k)).processedCount := by
  obtain ⟨hc1, hc2⟩ := runCandidates_bound (rs.take k) JobCounters.zero
  obtain ⟨ht1, ht2⟩ := runTasks_bound (ts.take k) JobCounters.zero
  refine ⟨?_, hc2 (by simp [JobCounters.zero]), ?_, ht2 (by simp [JobCounters.zero])⟩
  · calc _ ≤ JobCounters.zero.processedCount + JobCounters.zero.duplicatesSkipped
          + (rs.take k).length := hc1
      _ ≤ k := by simp [JobCounters.zero]
  · calc _ ≤ JobCounters.zero.processedCount + JobCounters.zero.duplicatesSkipped
          + (ts.take k).length := ht1
      _ ≤ k := by simp [JobCounters.zero]


theorem plstep_active_le {limit : ℕ} {t u : PLState} (h : PLStep limit t u)
    (hle : t.active ≤ limit) : u.active ≤ limit := by
  cases h with
  | startTask hpend hcap => simpa using hcap
  | finishTask hact => simp only; omega
  | cancel =>
    rw [plCancel]
    split <;> simpa using hle


theorem plreach_active_le {limit k : ℕ} {t : PLState}
    (h : PLReach limit (PLState.init k) t) : t.active ≤ limit := by
  induction h with
  | refl => simp [PLState.init]
  | tail _ hstep ih => exact plstep_active_le hstep ih


/-- C2: in the queue-variant pool a task runs only on one of the `n` worker
slots, so at most `n` tasks execute concurrently; in the pLimit-variant pool
every state reachable under `pLimit(limit)` keeps at most `limit` tasks
executing, for any number `k` of queued candidates. -/
theorem worker_budget_never_exceeded (n limit k : ℕ) (s : QState n) (t : PLState)
    (_hs : QReach n (QState.init n) s)
    (ht : PLReach limit (PLState.init k) t) :
    busyCount s ≤ n ∧ t.active ≤ limit := by
  constructor
  · calc busyCount s ≤ Finset.univ.card := Finset.card_filter_le _ _
      _ = n := Finset.card_fin n
  · exact plreach_active_le ht


/-- Witness for C2: the default budget 20 with a 100-candidate burst, after
one start step in each pool. -/
theorem worker_budget_never_exceeded_witness :
    QReach 20 (QState.init 20) (startJobEffect (QState.init 20) 0 100)
    ∧ PLReach 20 (PLState.init 100) ⟨99, 1, true, 1⟩
    ∧ busyCount (startJobEffect (QState.init 20) 0 100) ≤ 20
    ∧ (⟨99, 1, true, 1⟩ : PLState).active ≤ 20 := by
  have h1 : QReach 20 (QState.init 20) (startJobEffect (QState.init 20) 0 100) :=
    QReach.tail (QReach.refl _)
      (QStep.start _ 0 100 rfl (by simp [QState.init]) rfl
        (fun w => by simp [QState.init]) (by omega))
  have h2 : PLReach 20 (PLState.init 100) ⟨99, 1, true, 1⟩ := by
    have hstep : PLStep 20 (PLState.init 100) ⟨99, 1, true, 1⟩ :=
      PLStep.startTask (PLState.init 100) (by decide) (by decide)
    exact PLReach.tail (PLReach.refl _) hstep
  obtain ⟨hb1, hb2⟩ := worker_budget_never_exceeded 20 20 100 _ _ h1 h2
  exact ⟨h1, h2, hb1, hb2⟩


/-! ## Registry lemmas and completion/cancellation invariants -/

theorem lookupJob_append_of_some {aj : List (ℕ × Bool)} {j : ℕ} {b : Bool}
    (l2 : List (ℕ × Bool)) (h : lookupJob aj j = some b) :
    lookupJob (aj ++ l2) j = some b := by
  induction aj with
  | nil => cases h
  | cons p rest ih =>
    obtain ⟨i, x⟩ := p
    by_cases hij : i = j
    · simp only [List.cons_append, lookupJob, if_pos hij] at h ⊢
      exact h
    · simp only [List.cons_append, lookupJob, if_neg hij] at h ⊢
      exact ih h


theorem lookupJob_append_of_none {aj : List (ℕ × Bool)} {j : ℕ}
    (l2 : List (ℕ × Bool)) (h : lookupJob aj j = none) :
    lookupJob (aj ++ l2) j = lookupJob l2 j := by
  induction aj with
  | nil => rfl
  | cons p rest ih =>
    obtain ⟨i, x⟩ := p
    by_cases hij : i = j
    · rw [lookupJob, if_pos hij] at h
      exact absurd h (by simp)
    · rw [List.cons_append, lookupJob, if_neg hij]
      rw [lookupJob, if_neg hij] at h
      exact ih h


theorem lookupJob_setJobFlag_self (aj : List (ℕ × Bool)) (j : ℕ) (b : Bool) :
    lookupJob (setJobFlag aj j b) j = (lookupJob aj j).map (fun _ => b) := by
  induction aj with
  | nil => rfl
  | cons p rest ih =>
    obtain ⟨i, x⟩ := p
    by_cases hij : i = j
    · simp [setJobFlag, lookupJob, hij]
    · simp [setJobFlag, lookupJob, hij, ih]


theorem lookupJob_setJobFlag_ne (aj : List (ℕ × Bool)) {j j0 : ℕ}
    (hne : j ≠ j0) (b : Bool) :
    lookupJob (setJobFlag aj j0 b) j = lookupJob aj j := by
  induction aj with
  | nil => rfl
  | cons p rest ih =>
    obtain ⟨i, x⟩ := p
    by_cases hij0 : i = j0
    · subst hij0
      simp [setJobFlag, lookupJob, Ne.symm hne, ih]
    · by_cases hij : i = j
      · simp [setJobFlag, lookupJob, hij0, hij, hne]
      · simp [setJobFlag, lookupJob, hij0, hij, ih]


theorem lookupJob_removeJob_self (aj : List (ℕ × Bool)) (j : ℕ) :
    lookupJob (removeJob aj j) j = none := by
  induction aj with
  | nil => rfl
  | cons p rest ih =>
    obtain ⟨i, x⟩ := p
    by_cases hij : i = j
    · simpa [removeJob, hij] using ih
    · simpa [removeJob, lookupJob, hij] using ih


theorem lookupJob_removeJob_ne (aj : List (ℕ × Bool)) {j j0 : ℕ} (hne : j ≠ j0) :
    lookupJob (removeJob aj j0) j = lookupJob aj j := by
  induction aj with
  | nil => rfl
  | cons p rest ih =>
    obtain ⟨i, x⟩ := p
    by_cases hij0 : i = j0
    · subst hij0
      simp [removeJob, lookupJob, Ne.symm hne, ih]
    · by_cases hij : i = j
      · simp [removeJob, lookupJob, hij0, hij, hne]
      · simp [removeJob, lookupJob, hij0, hij, ih]


theorem count_filter_ne_self (q : List ℕ) (j : ℕ) :
    (q.filter (fun t => t ≠ j)).count j = 0 := by
  rw [List.count_eq_zero]
  intro hmem
  have := List.of_mem_filter hmem
  simp at this


theorem qstep_qinv {n : ℕ} {s u : QState n} (hstep : QStep n s u) (hinv : QInv s) :
    QInv u := by
  obtain ⟨hEI, hnd⟩ := hinv
  cases hstep with
  | start j k hfresh hnodone hnoq hnorun hk =>
    refine ⟨?_, hnd⟩
    intro j' hj'
    simp only [startJobEffect] at hj' ⊢
    have hne : j' ≠ j := fun h => hnodone (h ▸ hj')
    rw [lookupJob_append_of_none _ (hEI j' hj')]
    rw [lookupJob, if_neg (fun h => hne h.symm)]
    rfl
  | dispatchRun w j rest hidle hq hrun =>
    exact ⟨fun j' hj' => hEI j' hj', hnd⟩
  | dispatchDrop j rest hq hstale =>
    exact ⟨fun j' hj' => hEI j' hj', hnd⟩
  | cancel j =>
    rw [cancelJobQ]
    split
    · refine ⟨?_, hnd⟩
      intro j' hj'
      by_cases hjj : j' = j
      · subst hjj
        rw [lookupJob_setJobFlag_self, hEI _ hj']
        rfl
      · rw [lookupJob_setJobFlag_ne _ hjj]
        exact hEI j' hj'
    · exact ⟨hEI, hnd⟩
  | finish w j hbusy =>
    simp only [finishEffect]
    split
    · rename_i hcond
      obtain ⟨hq0, hb0, hlook⟩ := hcond
      have hjnot : j ∉ s.completeEmitted := fun hmem => hlook (hEI j hmem)
      constructor
      · intro j' hj'
        simp only [completeJobEffect] at hj' ⊢
        rcases List.mem_append.mp hj' with hin | hin
        · by_cases hjj : j' = j
          · subst hjj
            exact lookupJob_removeJob_self _ _
          · rw [lookupJob_removeJob_ne _ hjj]
            exact hEI j' hin
        · have : j' = j := by simpa using hin
          subst this
          exact lookupJob_removeJob_self _ _
      · simp only [completeJobEffect]
        simp [List.nodup_append, hnd, hjnot]
    · exact ⟨fun j' hj' => hEI j' hj', hnd⟩


theorem qreach_qinv {n : ℕ} {s : QState n}
    (h : QReach n (QState.init n) s) : QInv s := by
  induction h with
  | refl => exact ⟨fun j hj => by simp [QState.init] at hj, List.nodup_nil⟩
  | tail _ hstep ih => exact qstep_qinv hstep ih


theorem cancelJobQ_completeEmitted {n : ℕ} (s : QState n) (j : ℕ) :
    (cancelJobQ s j).completeEmitted = s.completeEmitted := by
  rw [cancelJobQ]
  split <;> rfl


/-- C3 (amended): whenever a step of the pool emits a completion event for a
job, that job had not been granted one before (the event is emitted at most
once per job), the emission happens only with the job's queue exhausted and
no worker slot busy, and it records `completed` status, a completion
timestamp, and zero `activeWorkers` on the job row. -/
theorem completion_once_only_after_drain (n j : ℕ) (s s' : QState n)
    (hreach : QReach n (QState.init n) s) (hstep : QStep n s s')
    (hemit : s'.completeEmitted = s.completeEmitted ++ [j]) :
    j ∉ s.completeEmitted
    ∧ s'.completeEmitted.count j = 1
    ∧ s'.taskQueue.count j = 0
    ∧ busyCount s' = 0
    ∧ (s'.rows j).status = "completed"
    ∧ (s'.rows j).completedAtSet = true
    ∧ (s'.rows j).activeWorkers = 0 := by
  obtain ⟨hEI, hnd⟩ := qreach_qinv hreach
  cases hstep with
  | start j0 k hfresh hnodone hnoq hnorun hk =>
    exfalso
    have := congrArg List.length hemit
    simp [startJobEffect] at this
  | dispatchRun w j0 rest hidle hq hrun =>
    exfalso
    have := congrArg List.length hemit
    simp [dispatchRunEffect] at this
  | dispatchDrop j0 rest hq hstale =>
    exfalso
    have := congrArg List.length hemit
    simp at this
  | cancel j0 =>
    exfalso
    rw [cancelJobQ_completeEmitted] at hemit
    have := congrArg List.length hemit
    simp at this
  | finish w j0 hbusy =>
    simp only [finishEffect] at hemit ⊢
    split at hemit
    · rename_i hcond
      have hq0 := hcond.1
      have hb0 := hcond.2.1
      have hlook := hcond.2.2
      simp only [completeJobEffect] at hemit
      have hj0 : j0 = j := by
        have := List.append_cancel_left hemit
        simpa using this
      subst hj0
      have hjnot : j0 ∉ s.completeEmitted := fun hmem => hlook (hEI j0 hmem)
      rw [if_pos hcond]
      refine ⟨hjnot, ?_, hq0, hb0, ?_, ?_, ?_⟩
      · simp only [completeJobEffect]
        simp [List.count_append, List.count_eq_zero.mpr hjnot]
      · simp [completeJobEffect]
      · simp [completeJobEffect]
      · simp [completeJobEffect]
    · exfalso
      have := congrArg List.length hemit
      simp at this


theorem qstep_init_qTrace1 : QStep 1 (QState.init 1) qTrace1 :=
  QStep.start _ 0 1 rfl (by simp [QState.init]) rfl
    (fun w => by simp [QState.init]) (by omega)


theorem qstep_qTrace1_qTrace2 : QStep 1 qTrace1 qTrace2 :=
  QStep.dispatchRun _ 0 0 [] rfl (by decide) (by decide)


theorem qreach_qTrace2 : QReach 1 (QState.init 1) qTrace2 :=
  QReach.tail (QReach.tail (QReach.refl _) qstep_init_qTrace1) qstep_qTrace1_qTrace2


/-- Witness for C3 at the concrete one-candidate trace. -/
theorem completion_once_only_after_drain_witness :
    (QReach 1 (QState.init 1) qTrace2
      ∧ QStep 1 qTrace2 qTrace3
      ∧ qTrace3.completeEmitted = qTrace2.completeEmitted ++ [0])
    ∧ ((0 : ℕ) ∉ qTrace2.completeEmitted
      ∧ qTrace3.completeEmitted.count 0 = 1
      ∧ qTrace3.taskQueue.count 0 = 0
      ∧ busyCount qTrace3 = 0
      ∧ (qTrace3.rows 0).status = "completed"
      ∧ (qTrace3.rows 0).completedAtSet = true
      ∧ (qTrace3.rows 0).activeWorkers = 0) := by
  have hstep : QStep 1 qTrace2 qTrace3 := QStep.finish _ 0 0 (by decide)
  have hemit : qTrace3.completeEmitted = qTrace2.completeEmitted ++ [0] := by decide
  exact ⟨⟨qreach_qTrace2, hstep, hemit⟩,
    completion_once_only_after_drain 1 0 qTrace2 qTrace3 qreach_qTrace2 hstep hemit⟩


theorem qstep_cancelInv {n j : ℕ} {W0 : Finset (Fin n)} {s u : QState n}
    (hstep : QStep n s u) (hinv : CancelInv n j W0 s) : CancelInv n j W0 u := by
  obtain ⟨hq, hw, hflag, hW0⟩ := hinv
  cases hstep with
  | start j0 k hfresh hnodone hnoq hnorun hk =>
    have hne : j ≠ j0 := by
      rintro rfl
      rcases hflag with h | ⟨h, hmem⟩
      · rw [hfresh] at h
        cases h
      · exact hnodone hmem
    refine ⟨?_, hw, ?_, hW0⟩
    · simp only [startJobEffect]
      simp [List.count_append, List.count_replicate, Ne.symm hne, hq]
    · simp only [startJobEffect]
      rcases hflag with h | ⟨h, hmem⟩
      · exact Or.inl (lookupJob_append_of_some _ h)
      · refine Or.inr ⟨?_, hmem⟩
        rw [lookupJob_append_of_none _ h]
        rw [lookupJob, if_neg (fun hh => hne hh.symm)]
        rfl
  | dispatchRun w j0 rest hidle hq' hrun =>
    have hne : j ≠ j0 := by
      rintro rfl
      rcases hflag with h | ⟨h, hmem⟩ <;> rw [hrun] at h <;> cases h
    refine ⟨?_, ?_, hflag, hW0⟩
    · rw [hq'] at hq
      simp only [dispatchRunEffect]
      simp [List.count_cons, Ne.symm hne] at hq ⊢
      omega
    · intro w' hw'
      simp only [dispatchRunEffect] at hw'
      by_cases hww : w' = w
      · subst hww
        rw [Function.update_same] at hw'
        exact absurd (Option.some.inj hw') hne.symm
      · rw [Function.update_noteq hww] at hw'
        exact hw w' hw'
  | dispatchDrop j0 rest hq' hstale =>
    refine ⟨?_, hw, hflag, hW0⟩
    rw [hq'] at hq
    simp only
    rw [List.count_cons] at hq
    omega
  | cancel j0 =>
    rw [cancelJobQ]
    split
    · refine ⟨?_, hw, ?_, hW0⟩
      · simp only
        have hle : (s.taskQueue.filter (fun t => t ≠ j0)).count j ≤ 0 :=
          hq ▸ (List.filter_sublist _).count_le j
        omega
      · simp only
        by_cases hjj : j = j0
        · subst hjj
          rcases hflag with h | ⟨h, hmem⟩
          · rw [lookupJob_setJobFlag_self, h]
            exact Or.inl rfl
          · rw [lookupJob_setJobFlag_self, h]
            exact Or.inr ⟨rfl, hmem⟩
        · rw [lookupJob_setJobFlag_ne _ hjj]
          exact hflag
    · exact ⟨hq, hw, hflag, hW0⟩
  | finish w j0 hbusy =>
    simp only [finishEffect]
    have hw1 : ∀ w', Function.update s.running w none w' = some j → w' ∈ W0 := by
      intro w' hw'
      by_cases hww : w' = w
      · subst hww
        rw [Function.update_same] at hw'
        cases hw'
      · rw [Function.update_noteq hww] at hw'
        exact hw w' hw'
    split
    · rename_i hcond
      obtain ⟨hq0, hb0, hlook⟩ := hcond
      by_cases hjj : j0 = j
      · subst hjj
        have hmemW0 : w ∈ W0 := hw w hbusy
        refine ⟨hq, hw1, ?_, ?_⟩
        · simp only [completeJobEffect]
          exact Or.inr ⟨lookupJob_removeJob_self _ _,
            List.mem_append.mpr (Or.inr (List.mem_singleton_self _))⟩
        · intro hempty
          exact absurd (hempty ▸ hmemW0) (Finset.not_mem_empty w)
      · refine ⟨hq, hw1, ?_, ?_⟩
        · simp only [completeJobEffect]
          rw [lookupJob_removeJob_ne _ (fun h => hjj h.symm)]
          rcases hflag with h | ⟨h, hmem⟩
          · exact Or.inl h
          · exact Or.inr ⟨h, List.mem_append.mpr (Or.inl hmem)⟩
        · intro hempty
          simp only [completeJobEffect, List.mem_append]
          rintro (hmem | hmem)
          · exact hW0 hempty hmem
          · have hjeq : j = j0 := by simpa using hmem
            exact hjj hjeq.symm
    · exact ⟨hq, hw1, hflag, hW0⟩


theorem qreach_cancelInv {n j : ℕ} {W0 : Finset (Fin n)} {s s' : QState n}
    (hinv : CancelInv n j W0 s) (h : QReach n s s') : CancelInv n j W0 s' := by
  induction h with
  | refl => exact hinv
  | tail _ hstep ih => exact qstep_cancelInv hstep ih


/-- Counterexample to C3's "emitted exactly once for every job": job 0 is
started and then cancelled before its target dispatches; no continuation of
the pool ever emits a completion event for it. -/
theorem cancelled_job_never_receives_completion :
    QReach 1 (QState.init 1) qCancelled
    ∧ lookupJob qCancelled.activeJobs 0 = some false
    ∧ ¬ ∃ s', QReach 1 qCancelled s' ∧ (0 : ℕ) ∈ s'.completeEmitted := by
  have hreach : QReach 1 (QState.init 1) qCancelled :=
    QReach.tail (QReach.tail (QReach.refl _) qstep_init_qTrace1)
      (QStep.cancel qTrace1 0)
  have hinv : CancelInv 1 0 ∅ qCancelled := by
    refine ⟨by decide, by decide, Or.inl (by decide), fun _ => by decide⟩
  refine ⟨hreach, by decide, ?_⟩
  rintro ⟨s', hr, hmem⟩
  exact (qreach_cancelInv hinv hr).2.2.2 rfl hmem


theorem setJobFlag_setJobFlag (aj : List (ℕ × Bool)) (j : ℕ) (b : Bool) :
    setJobFlag (setJobFlag aj j b) j b = setJobFlag aj j b := by
  induction aj with
  | nil => rfl
  | cons p rest ih =>
    obtain ⟨i, x⟩ := p
    by_cases hij : i = j
    · simp [setJobFlag, hij, ih]
    · simp [setJobFlag, hij, ih]


theorem filter_ne_idem (q : List ℕ) (j : ℕ) :
    (q.filter (fun t => t ≠ j)).filter (fun t => t ≠ j) = q.filter (fun t => t ≠ j) := by
  induction q with
  | nil => rfl
  | cons a rest ih =>
    by_cases haj : a = j
    · simp [List.filter_cons, haj, ih]
    · simp [List.filter_cons, haj, ih]


theorem plCancel_idem (t : PLState) : plCancel (plCancel t) = plCancel t := by
  by_cases h : t.jobActive = true
  · have h1 : plCancel t = { t with jobActive := false } := by rw [plCancel, if_pos h]
    rw [h1, plCancel]
    simp
  · have h1 : plCancel t = t := by rw [plCancel, if_neg h]
    rw [h1]
    exact h1


/-- C8 (amended): in the map-based queue pool, cancelling a registered job
lets no new task of that job begin dispatch — any worker found executing it
later was already executing it when cancel was called — and `cancelJob` is
idempotent in both pool variants (in the pLimit pool it only deletes the
job's registry entry). -/
theorem cancel_blocks_new_dispatch_and_is_idempotent
    (n j : ℕ) (s s' : QState n) (t : PLState) (w : Fin n)
    (hreach : QReach n (QState.init n) s)
    (hactive : (lookupJob s.activeJobs j).isSome = true)
    (hafter : QReach n (cancelJobQ s j) s')
    (hrun : s'.running w = some j) :
    s.running w = some j
    ∧ cancelJobQ (cancelJobQ s j) j = cancelJobQ s j
    ∧ plCancel (plCancel t) = plCancel t := by
  obtain ⟨hEI, hnd⟩ := qreach_qinv hreach
  obtain ⟨b, hb⟩ := Option.isSome_iff_exists.mp hactive
  have hcancel : cancelJobQ s j =
      { s with activeJobs := setJobFlag s.activeJobs j false,
               taskQueue := s.taskQueue.filter (fun t => t ≠ j) } := by
    rw [cancelJobQ, if_pos hactive]
  have hinv0 : CancelInv n j (Finset.univ.filter (fun w => s.running w = some j))
      (cancelJobQ s j) := by
    rw [hcancel]
    refine ⟨count_filter_ne_self _ _, ?_, ?_, ?_⟩
    · intro w' hw'
      simp only at hw'
      simp [hw']
    · simp only
      rw [lookupJob_setJobFlag_self, hb]
      exact Or.inl rfl
    · intro _ hmem
      simp only at hmem
      have := hEI j hmem
      rw [this] at hb
      cases hb
  have hinv' := qreach_cancelInv hinv0 hafter
  have hmem := hinv'.2.1 w hrun
  refine ⟨(Finset.mem_filter.mp hmem).2, ?_, plCancel_idem t⟩
  rw [hcancel]
  have hactive2 : (lookupJob (setJobFlag s.activeJobs j false) j).isSome = true := by
    rw [lookupJob_setJobFlag_self, hb]
    rfl
  rw [cancelJobQ]
  rw [if_pos hactive2]
  simp [setJobFlag_setJobFlag, filter_ne_idem]


/-- Witness for C8: job 0 started, its target dispatched to worker 0, then
cancelled; worker 0 is still executing it afterwards, and both cancels are
idempotent. -/
theorem cancel_blocks_new_dispatch_and_is_idempotent_witness :
    (QReach 1 (QState.init 1) qTrace2
      ∧ (lookupJob qTrace2.activeJobs 0).isSome = true
      ∧ QReach 1 (cancelJobQ qTrace2 0) (cancelJobQ qTrace2 0)
      ∧ (cancelJobQ qTrace2 0).running 0 = some 0)
    ∧ (qTrace2.running 0 = some 0
      ∧ cancelJobQ (cancelJobQ qTrace2 0) 0 = cancelJobQ qTrace2 0
      ∧ plCancel (plCancel ⟨5, 2, true, 7⟩) = plCancel ⟨5, 2, true, 7⟩) := by
  have hrun : (cancelJobQ qTrace2 0).running 0 = some 0 := by decide
  exact ⟨⟨qreach_qTrace2, by decide, QReach.refl _, hrun⟩,
    cancel_blocks_new_dispatch_and_is_idempotent 1 0 qTrace2 (cancelJobQ qTrace2 0)
      ⟨5, 2, true, 7⟩ 0 qreach_qTrace2 (by decide) (QReach.refl _) hrun⟩


/-- Counterexample to C8's "no new candidate-processing task for that job
begins dispatch" in the pLimit-based pool: after `cancelJob` has removed the
job from the registry, the limiter still starts a queued task. -/
theorem plimit_cancel_new_task_still_starts :
    (plCancel ⟨1, 0, true, 0⟩).jobActive = false
    ∧ PLStep 20 (plCancel ⟨1, 0, true, 0⟩) ⟨0, 1, false, 1⟩
    ∧ (⟨0, 1, false, 1⟩ : PLState).startedCount
        = (plCancel ⟨1, 0, true, 0⟩).startedCount + 1 := by
  refine ⟨by decide, ?_, by decide⟩
  exact PLStep.startTask (plCancel ⟨1, 0, true, 0⟩) (by decide) (by decide)



end LeadFinder
